import Mathlib

/-!
# Verification of the jsonplaceholder aggregation pipeline

Shallow embedding of the Go program in `src/unnamed/part_002` (package
`main`): a fan-out retrieval stage, a fixed pool of parse workers, a
mutex-guarded aggregation store, an enrichment pass, and an error-tally
task.  Go byte slices become `List Nat`, Go `error` values become
`String` descriptions, Go maps `map[int]V` become association lists
`List (Int × V)` with Go's lookup-default/assign semantics, and the
effects of the external world (HTTP transport, `io.ReadAll`,
`json.Unmarshal`, `time.Now`) are passed in as explicit inputs.
-/

set_option autoImplicit false

namespace Jsonplaceholder

/-- Go `[]byte`. -/
abbrev ByteSeq := List Nat

/-- A Go `error` value, abstracted to its description. -/
abbrev GoError := String

/-! ## Endpoint constants and the type map (part_002 lines 14-34) -/

def GET_USERS : String := "https://jsonplaceholder.typicode.com/users"
def GET_POSTS : String := "https://jsonplaceholder.typicode.com/posts"
def GET_COMMENTS : String := "https://jsonplaceholder.typicode.com/comments"
def GET_ALBUMS : String := "https://jsonplaceholder.typicode.com/albums"
def GET_PHOTOS : String := "https://jsonplaceholder.typicode.com/photos"
def GET_TODOS : String := "https://jsonplaceholder.typicode.com/todos"

/-- `parseWorkers = 6` (part_002 line 22): size of the parse worker pool. -/
def parseWorkers : Nat := 6

/-- `typeMap` (part_002 lines 27-34), as a lookup function. -/
def typeMap (endpoint : String) : Option String :=
  if endpoint = GET_USERS then some "user"
  else if endpoint = GET_POSTS then some "post"
  else if endpoint = GET_COMMENTS then some "comment"
  else if endpoint = GET_ALBUMS then some "album"
  else if endpoint = GET_PHOTOS then some "photo"
  else if endpoint = GET_TODOS then some "todo"
  else none

/-- `getType` (part_002 lines 232-237). -/
def getType (endpoint : String) : String :=
  match typeMap endpoint with
  | some t => t
  | none => "unknown"

/-! ## Record kinds (part_002 lines 36-87) -/

structure User where
  ID : Int
  Name : String
  Email : String
deriving DecidableEq, Repr

structure Post where
  ID : Int
  Title : String
  Body : String
  UserID : Int
deriving DecidableEq, Repr

structure Comment where
  ID : Int
  Name : String
  Email : String
  Body : String
  PostID : Int
deriving DecidableEq, Repr

structure Album where
  ID : Int
  Title : String
  UserID : Int
deriving DecidableEq, Repr

structure Photo where
  ID : Int
  Title : String
  Url : String
  ThumbnailUrl : String
  AlbumID : Int
deriving DecidableEq, Repr

structure Todo where
  ID : Int
  Title : String
  Completed : Bool
  UserID : Int
deriving DecidableEq, Repr

structure EnrichedUser where
  ID : Int
  Name : String
  Email : String
  PostCount : Nat
  AlbumCount : Nat
  TodoCount : Nat
  CommentCount : Nat
  PhotoCount : Nat
deriving DecidableEq, Repr

/-! ## Pipeline message shapes (part_002 lines 89-105) -/

structure RawResponse where
  Endpoint : String
  Data : ByteSeq
deriving DecidableEq, Repr

/-- The `any`-typed `ParsedData.Data` field: in the program it only ever
holds one of the six record slices, so we embed it as a closed sum. -/
inductive PayloadData where
  | users (v : List User)
  | posts (v : List Post)
  | comments (v : List Comment)
  | albums (v : List Album)
  | photos (v : List Photo)
  | todos (v : List Todo)
deriving DecidableEq, Repr

structure ParsedData where
  Data : PayloadData
  Endpoint : String
  /-- The Go field is named `Type`; that word is a keyword here. -/
  TypeTag : String
deriving DecidableEq, Repr

/-- `PipelineError` (part_002 lines 100-105); the `Timestamp` is the
`time.Now()` value at emission, supplied by the environment. -/
structure PipelineError where
  Stage : String
  Endpoint : String
  Error : GoError
  Timestamp : Nat
deriving DecidableEq, Repr

/-! ## Association-list model of Go maps

`map[int]V` becomes `List (Int × V)` in insertion order.
`insertAt m k v` is Go `m[k] = v`; `lookupList m k` is the read
`m[k]` of a map whose values are slices (zero value `nil` = `[]`);
`appendAt m k v` is Go `m[k] = append(m[k], v)`. -/

def insertAt {α : Type} (m : List (Int × α)) (k : Int) (v : α) : List (Int × α) :=
  match m with
  | [] => [(k, v)]
  | (k', v') :: rest => if k' = k then (k, v) :: rest else (k', v') :: insertAt rest k v

def lookupList {α : Type} (m : List (Int × List α)) (k : Int) : List α :=
  match m with
  | [] => []
  | (k', b) :: rest => if k' = k then b else lookupList rest k

def appendAt {α : Type} (m : List (Int × List α)) (k : Int) (v : α) : List (Int × List α) :=
  match m with
  | [] => [(k, [v])]
  | (k', b) :: rest => if k' = k then (k', b ++ [v]) :: rest else (k', b) :: appendAt rest k v

/-- The keys of an embedded Go map. -/
def keysOf {α : Type} (m : List (Int × α)) : List Int :=
  m.map (fun e => e.1)

/-- Total number of records held in the buckets of one index. -/
def bucketSizes {α : Type} (m : List (Int × List α)) : Nat :=
  (m.map (fun e => e.2.length)).sum

/-! ## The aggregation store (part_002 lines 107-180)

The `sync.RWMutex` serialises the merge operations; the embedding makes
that serialisation explicit by applying the merges one at a time. -/

structure AggregatedData where
  Users : List (Int × User)
  Posts : List (Int × List Post)
  Albums : List (Int × List Album)
  Todos : List (Int × List Todo)
  Comments : List (Int × List Comment)
  Photos : List (Int × List Photo)
  PostsByUser : List (Int × List Post)
  AlbumsByUser : List (Int × List Album)
deriving DecidableEq, Repr

/-- `NewAggregatedData` (part_002 lines 119-130). -/
def NewAggregatedData : AggregatedData :=
  { Users := [], Posts := [], Albums := [], Todos := [], Comments := [],
    Photos := [], PostsByUser := [], AlbumsByUser := [] }

namespace AggregatedData

/-- `AddUsers` (part_002 lines 132-138): `ad.Users[u.ID] = u` per user. -/
def AddUsers (ad : AggregatedData) (users : List User) : AggregatedData :=
  users.foldl (fun ad u => { ad with Users := insertAt ad.Users u.ID u }) ad

/-- `AddPosts` (part_002 lines 140-147): each post is appended to the
bucket keyed by its `UserID` in both `Posts` and `PostsByUser`. -/
def AddPosts (ad : AggregatedData) (posts : List Post) : AggregatedData :=
  posts.foldl
    (fun ad p =>
      { ad with
        Posts := appendAt ad.Posts p.UserID p,
        PostsByUser := appendAt ad.PostsByUser p.UserID p })
    ad

/-- `AddAlbums` (part_002 lines 149-156): each album is appended to the
bucket keyed by its `UserID` in both `Albums` and `AlbumsByUser`. -/
def AddAlbums (ad : AggregatedData) (albums : List Album) : AggregatedData :=
  albums.foldl
    (fun ad a =>
      { ad with
        Albums := appendAt ad.Albums a.UserID a,
        AlbumsByUser := appendAt ad.AlbumsByUser a.UserID a })
    ad

/-- `AddTodos` (part_002 lines 158-164). -/
def AddTodos (ad : AggregatedData) (todos : List Todo) : AggregatedData :=
  todos.foldl (fun ad t => { ad with Todos := appendAt ad.Todos t.UserID t }) ad

/-- `AddComments` (part_002 lines 166-172). -/
def AddComments (ad : AggregatedData) (comments : List Comment) : AggregatedData :=
  comments.foldl (fun ad c => { ad with Comments := appendAt ad.Comments c.PostID c }) ad

/-- `AddPhotos` (part_002 lines 174-180). -/
def AddPhotos (ad : AggregatedData) (photos : List Photo) : AggregatedData :=
  photos.foldl (fun ad p => { ad with Photos := appendAt ad.Photos p.AlbumID p }) ad

/-- `GetEnrichedUsers` (part_002 lines 182-210): one `EnrichedUser` per
entry of `Users`, in the order the embedded map holds them (the Go map's
iteration order is unspecified; the embedding iterates insertion order). -/
def GetEnrichedUsers (ad : AggregatedData) : List EnrichedUser :=
  ad.Users.map (fun e =>
    let user := e.2
    let commentCount :=
      ((lookupList ad.PostsByUser user.ID).map
        (fun post => (lookupList ad.Comments post.ID).length)).sum
    let photoCount :=
      ((lookupList ad.AlbumsByUser user.ID).map
        (fun album => (lookupList ad.Photos album.ID).length)).sum
    { ID := user.ID
      Name := user.Name
      Email := user.Email
      PostCount := (lookupList ad.Posts user.ID).length
      AlbumCount := (lookupList ad.Albums user.ID).length
      TodoCount := (lookupList ad.Todos user.ID).length
      CommentCount := commentCount
      PhotoCount := photoCount })

end AggregatedData

/-! ## Retrieval stage (part_002 lines 239-273)

`fetchData` interacts with the outside world through `client.Get` and
`io.ReadAll`; a `FetchOutcome` records what those two calls return.
Note that part_002 never inspects `res.StatusCode`: the outcome keeps
the status only so that its (non-)use can be stated. -/

inductive FetchOutcome where
  /-- `client.Get` returned a non-nil error (network failure or the
  2-second `requestTimeout` expiring). -/
  | getErr (e : GoError)
  /-- `client.Get` returned a response with this status code, and
  `io.ReadAll(res.Body)` returned the given result. -/
  | res (status : Nat) (read : Except GoError ByteSeq)
deriving Repr

/-- `fetchData` (part_002 lines 239-273), as the pair of message lists
it sends: first component what goes to `ch` (the raw channel), second
what goes to `errCh`.  `main` passes `stage = "fetch"` for the retrieval
stage and `now` is the `time.Now()` a failure would record. -/
def fetchData (endpoint : String) (outcome : FetchOutcome) (stage : String) (now : Nat) :
    List RawResponse × List PipelineError :=
  match outcome with
  | .getErr e => ([], [{ Stage := stage, Endpoint := endpoint, Error := e, Timestamp := now }])
  | .res _ (.error e) =>
      ([], [{ Stage := stage, Endpoint := endpoint, Error := e, Timestamp := now }])
  | .res _ (.ok data) => ([{ Endpoint := endpoint, Data := data }], [])

/-! ## Parse stage (part_002 lines 212-230 and 322-344) -/

/-- `parseData[T]` (part_002 lines 212-230), as the pair of message
lists it sends to `parsedCh` and `errCh`.  The `json.Unmarshal`
call's result on `rawData.Data` is an input (`unmarshal`), already
tagged with the record kind `T` the caller instantiated. -/
def parseData (unmarshal : Except GoError PayloadData) (rawData : RawResponse)
    (stage : String) (now : Nat) : List ParsedData × List PipelineError :=
  match unmarshal with
  | .error err =>
      ([], [{ Stage := stage, Endpoint := rawData.Endpoint, Error := err, Timestamp := now }])
  | .ok data =>
      ([{ Data := data, Endpoint := rawData.Endpoint, TypeTag := getType rawData.Endpoint }], [])

/-- The `json.Unmarshal` behaviour of one run: what decoding a byte
sequence into each of the six record slices yields. -/
structure Decoders where
  users : ByteSeq → Except GoError (List User)
  posts : ByteSeq → Except GoError (List Post)
  comments : ByteSeq → Except GoError (List Comment)
  albums : ByteSeq → Except GoError (List Album)
  photos : ByteSeq → Except GoError (List Photo)
  todos : ByteSeq → Except GoError (List Todo)

/-- One parse-worker iteration (the `switch raw.Endpoint` at part_002
lines 327-341): dispatch on the endpoint and run the matching
`parseData[T]` instantiation; an endpoint outside the six cases emits
nothing. -/
def parseWorkerStep (dec : Decoders) (raw : RawResponse) (now : Nat) :
    List ParsedData × List PipelineError :=
  if raw.Endpoint = GET_USERS then
    parseData ((dec.users raw.Data).map .users) raw "parse" now
  else if raw.Endpoint = GET_POSTS then
    parseData ((dec.posts raw.Data).map .posts) raw "parse" now
  else if raw.Endpoint = GET_COMMENTS then
    parseData ((dec.comments raw.Data).map .comments) raw "parse" now
  else if raw.Endpoint = GET_ALBUMS then
    parseData ((dec.albums raw.Data).map .albums) raw "parse" now
  else if raw.Endpoint = GET_PHOTOS then
    parseData ((dec.photos raw.Data).map .photos) raw "parse" now
  else if raw.Endpoint = GET_TODOS then
    parseData ((dec.todos raw.Data).map .todos) raw "parse" now
  else ([], [])

/-! ## Aggregation drain (part_002 lines 351-369) -/

/-- The `switch parsed.Data.(type)` in `main`'s drain loop: merge one
`ParsedData` batch into the store. -/
def mergeParsed (ad : AggregatedData) (parsed : ParsedData) : AggregatedData :=
  match parsed.Data with
  | .users v => ad.AddUsers v
  | .posts v => ad.AddPosts v
  | .comments v => ad.AddComments v
  | .albums v => ad.AddAlbums v
  | .photos v => ad.AddPhotos v
  | .todos v => ad.AddTodos v

/-- Number of records carried by one batch's payload. -/
def payloadSize : PayloadData → Nat
  | .users v => v.length
  | .posts v => v.length
  | .comments v => v.length
  | .albums v => v.length
  | .photos v => v.length
  | .todos v => v.length

/-- Total number of records across a list of `ParsedData` batches. -/
def totalRecords (batches : List ParsedData) : Nat :=
  (batches.map (fun b => payloadSize b.Data)).sum

/-- Records stored across the six primary indexes of the store (the
unique owner index and the five foreign-key indexes; the mirror indexes
`PostsByUser` and `AlbumsByUser` are not counted here). -/
def totalPrimary (ad : AggregatedData) : Nat :=
  ad.Users.length + bucketSizes ad.Posts + bucketSizes ad.Albums +
    bucketSizes ad.Todos + bucketSizes ad.Comments + bucketSizes ad.Photos

/-- Records stored across all eight index fields of the store. -/
def totalIndexed (ad : AggregatedData) : Nat :=
  totalPrimary ad + bucketSizes ad.PostsByUser + bucketSizes ad.AlbumsByUser

/-! ## The whole run (part_002 `main`, lines 275-380)

The concurrent schedule is abstracted to the canonical order: retrieval
tasks in endpoint order, then the worker pool over the raw messages in
order, then the single-threaded drain.  Every quantity the claims
mention (tallies, bucket sizes, enriched counts) is independent of the
interleaving the Go scheduler actually picks. -/

/-- Everything the outside world decides during one run. -/
structure Env where
  fetch : String → FetchOutcome
  dec : Decoders
  now : Nat

structure RunResult where
  summaries : List EnrichedUser
  store : AggregatedData
  fetchErrTally : Nat
  parseErrTally : Nat

/-- The error-reporting goroutine's switch (part_002 lines 300-305):
tally errors whose `Stage` is the given tag. -/
def tallyStage (errs : List PipelineError) (stage : String) : Nat :=
  (errs.filter (fun e => e.Stage = stage)).length

/-- The retrieval stage of one run: every endpoint fetched (part_002
lines 312-316), split into what reaches `rawCh` and what reaches
`errCh`. -/
def fetchStage (endpoints : List String) (env : Env) :
    List RawResponse × List PipelineError :=
  let fetched := endpoints.map (fun e => fetchData e (env.fetch e) "fetch" env.now)
  ((fetched.map Prod.fst).flatten, (fetched.map Prod.snd).flatten)

/-- The parse stage of one run: the worker pool drains every raw
payload (part_002 lines 322-344), split into what reaches `parsedCh`
and what reaches `errCh`. -/
def parseStage (raws : List RawResponse) (env : Env) :
    List ParsedData × List PipelineError :=
  let parsedMsgs := raws.map (fun raw => parseWorkerStep env.dec raw env.now)
  ((parsedMsgs.map Prod.fst).flatten, (parsedMsgs.map Prod.snd).flatten)

/-- `main` (part_002 lines 275-380): fetch every endpoint, parse every
raw payload, drain the parsed batches into a fresh store, enrich, and
tally the error channel by stage. -/
def runPipeline (endpoints : List String) (env : Env) : RunResult :=
  let raws := (fetchStage endpoints env).1
  let fetchErrs := (fetchStage endpoints env).2
  let batches := (parseStage raws env).1
  let parseErrs := (parseStage raws env).2
  let store := batches.foldl mergeParsed NewAggregatedData
  let errs := fetchErrs ++ parseErrs
  { summaries := store.GetEnrichedUsers
    store := store
    fetchErrTally := tallyStage errs "fetch"
    parseErrTally := tallyStage errs "parse" }

/-! ## Merge-operation sequences

A store "built by the pipeline" is `NewAggregatedData` followed by some
sequence of the six merge operations; `MergeOp` names them. -/

inductive MergeOp where
  | addUsers (v : List User)
  | addPosts (v : List Post)
  | addComments (v : List Comment)
  | addAlbums (v : List Album)
  | addPhotos (v : List Photo)
  | addTodos (v : List Todo)
deriving DecidableEq, Repr

def applyOp (ad : AggregatedData) : MergeOp → AggregatedData
  | .addUsers v => ad.AddUsers v
  | .addPosts v => ad.AddPosts v
  | .addComments v => ad.AddComments v
  | .addAlbums v => ad.AddAlbums v
  | .addPhotos v => ad.AddPhotos v
  | .addTodos v => ad.AddTodos v

/-- The store after a sequence of merge operations on a fresh store. -/
def buildStore (ops : List MergeOp) : AggregatedData :=
  ops.foldl applyOp NewAggregatedData

/-! ## Spec-side enrichment (for the refinement claim)

`enrichSpec` follows §4.4 of the specification word for word: direct
counts are the sizes of the owner's relationship buckets, transitive
counts sum the leaf-kind bucket sizes over the owner's intermediate
records.  The specification's store has a single posts index and a
single albums index, so the intermediate records are read from the
primary `Posts`/`Albums` buckets. -/
def enrichSpec (ad : AggregatedData) (user : User) : EnrichedUser :=
  { ID := user.ID
    Name := user.Name
    Email := user.Email
    PostCount := (lookupList ad.Posts user.ID).length
    AlbumCount := (lookupList ad.Albums user.ID).length
    TodoCount := (lookupList ad.Todos user.ID).length
    CommentCount :=
      ((lookupList ad.Posts user.ID).map
        (fun post => (lookupList ad.Comments post.ID).length)).sum
    PhotoCount :=
      ((lookupList ad.Albums user.ID).map
        (fun album => (lookupList ad.Photos album.ID).length)).sum }

/-! ## Synchronisation skeleton of `main` (part_002 lines 275-349)

The claims about close ordering and deadlock freedom are about the
goroutine/`WaitGroup`/`close` wiring, not about the data.  `SyncState`
records the observable synchronisation state of one run:

* `fetchersRemaining` — retrieval goroutines that have not yet hit
  `defer wg.Done()` (part_002 line 240);
* `rawPending` — messages sitting in `rawCh`;
* `rawClosed` — whether `close(rawCh)` has run (line 319);
* `parsersRemaining` — parse workers that have not yet hit
  `defer parseWg.Done()` (line 326);
* `parsedClosed`, `errClosed` — whether `close(parsedCh)` and
  `close(errCh)` have run (lines 347-348).

Each `SyncStep` constructor is one synchronisation event of the Go
program; its guards are exactly the conditions under which the Go
runtime lets that event happen. -/

structure SyncState where
  fetchersRemaining : Nat
  rawPending : Nat
  rawClosed : Bool
  parsersRemaining : Nat
  parsedClosed : Bool
  errClosed : Bool
deriving DecidableEq, Repr

inductive SyncStep : SyncState → SyncState → Prop where
  /-- A retrieval goroutine sends its `RawResponse` and returns
  (running its deferred `wg.Done()`). -/
  | fetchEmit (s : SyncState) (k : Nat) :
      s.fetchersRemaining = k + 1 →
      SyncStep s { s with fetchersRemaining := k, rawPending := s.rawPending + 1 }
  /-- A retrieval goroutine takes an error path: it sends only to
  `errCh` and returns (deferred `wg.Done()`). -/
  | fetchFail (s : SyncState) (k : Nat) :
      s.fetchersRemaining = k + 1 →
      SyncStep s { s with fetchersRemaining := k }
  /-- The closer goroutine `go func() { wg.Wait(); close(rawCh) }()`
  (lines 317-320): it runs only once every retrieval task is done. -/
  | closeRaw (s : SyncState) :
      s.fetchersRemaining = 0 → s.rawClosed = false →
      SyncStep s { s with rawClosed := true }
  /-- A parse worker receives one message from `rawCh` (the body of
  `for raw := range rawCh`, lines 327-341). -/
  | consumeRaw (s : SyncState) (k : Nat) :
      s.rawPending = k + 1 →
      SyncStep s { s with rawPending := k }
  /-- A parse worker's `range rawCh` loop ends — possible only once
  `rawCh` is closed and drained — and the worker runs its deferred
  `parseWg.Done()` (lines 325-343). -/
  | parserExit (s : SyncState) (k : Nat) :
      s.rawClosed = true → s.rawPending = 0 → s.parsersRemaining = k + 1 →
      SyncStep s { s with parsersRemaining := k }
  /-- The closer goroutine
  `go func() { parseWg.Wait(); close(parsedCh); close(errCh) }()`
  (lines 345-349): it runs only once every parse worker is done. -/
  | closeParsedErr (s : SyncState) :
      s.parsersRemaining = 0 → s.parsedClosed = false →
      SyncStep s { s with parsedClosed := true, errClosed := true }

/-- Reflexive-transitive closure of `SyncStep`. -/
inductive SyncReach (s0 : SyncState) : SyncState → Prop where
  | refl : SyncReach s0 s0
  | step {s t : SyncState} : SyncReach s0 s → SyncStep s t → SyncReach s0 t

/-- The synchronisation state right after `main` spawns everything:
`n` retrieval tasks, `w` parse workers, nothing sent or closed. -/
def initSync (n w : Nat) : SyncState :=
  { fetchersRemaining := n, rawPending := 0, rawClosed := false,
    parsersRemaining := w, parsedClosed := false, errClosed := false }

/-- The fully shut-down state: everything joined, all queues closed. -/
def doneSync : SyncState :=
  { fetchersRemaining := 0, rawPending := 0, rawClosed := true,
    parsersRemaining := 0, parsedClosed := true, errClosed := true }

/-- A decreasing measure on synchronisation states: every `SyncStep`
strictly lowers it, so no run of the skeleton goes on forever. -/
def syncMeasure (s : SyncState) : Nat :=
  2 * s.fetchersRemaining + s.rawPending + 2 * s.parsersRemaining +
    (if s.rawClosed then 0 else 1) + (if s.parsedClosed then 0 else 1)

/-! ## Derived counting and dispatch observables -/

def userIDsOf (b : ParsedData) : List Int :=
  match b.Data with
  | .users v => v.map (fun u => u.ID)
  | _ => []

def allUserIDs (batches : List ParsedData) : List Int :=
  (batches.map userIDsOf).flatten

def postsCountOf (b : ParsedData) : Nat :=
  match b.Data with
  | .posts v => v.length
  | _ => 0

def albumsCountOf (b : ParsedData) : Nat :=
  match b.Data with
  | .albums v => v.length
  | _ => 0

def postsCount (batches : List ParsedData) : Nat := (batches.map postsCountOf).sum

def albumsCount (batches : List ParsedData) : Nat := (batches.map albumsCountOf).sum

/-- The `MergeOp` a drained batch triggers in `main`'s type switch. -/
def opOf (b : ParsedData) : MergeOp :=
  match b.Data with
  | .users v => .addUsers v
  | .posts v => .addPosts v
  | .comments v => .addComments v
  | .albums v => .addAlbums v
  | .photos v => .addPhotos v
  | .todos v => .addTodos v

/-- The enrichment pass seen as the state transformer the Go method is:
`GetEnrichedUsers` holds only the read lock and writes no field of the
store, so the store it leaves behind is the store it received. -/
def enrichPass (ad : AggregatedData) : AggregatedData × List EnrichedUser :=
  (ad, ad.GetEnrichedUsers)

/-- `endpoints` as `main` configures them (part_002 line 280). -/
def mainEndpoints : List String :=
  [GET_USERS, GET_POSTS, GET_COMMENTS, GET_ALBUMS, GET_PHOTOS, GET_TODOS]

/-- Did the transport produce a readable body? -/
def fetchOk : FetchOutcome → Bool
  | .res _ (.ok _) => true
  | _ => false

/-- The body a successful fetch carried (`[]` on failures, unused). -/
def bodyOfEnv (env : Env) (e : String) : ByteSeq :=
  match env.fetch e with
  | .res _ (.ok d) => d
  | _ => []

/-- The decode a parse worker runs on an endpoint's payload: the same
dispatch as `parseWorkerStep`, exposed as the `Except` value that
`parseData` inspects. -/
def decodeAt (dec : Decoders) (e : String) (d : ByteSeq) : Except GoError PayloadData :=
  if e = GET_USERS then (dec.users d).map .users
  else if e = GET_POSTS then (dec.posts d).map .posts
  else if e = GET_COMMENTS then (dec.comments d).map .comments
  else if e = GET_ALBUMS then (dec.albums d).map .albums
  else if e = GET_PHOTOS then (dec.photos d).map .photos
  else if e = GET_TODOS then (dec.todos d).map .todos
  else .error "unknown endpoint"

def decodeOfEnv (env : Env) (e : String) : Except GoError PayloadData :=
  decodeAt env.dec e (bodyOfEnv env e)

/-- Does this source's payload decode in this environment? -/
def decodeOk (env : Env) (e : String) : Bool :=
  match decodeOfEnv env e with
  | .ok _ => true
  | .error _ => false

/-- The batch a source contributes when its decode succeeds. -/
def batchOfEnv (env : Env) (e : String) : Option ParsedData :=
  match decodeOfEnv env e with
  | .ok data => some { Data := data, Endpoint := e, TypeTag := getType e }
  | .error _ => none

/-- The parse-stage error a source contributes when its decode fails. -/
def perrOfEnv (env : Env) (e : String) : Option PipelineError :=
  match decodeOfEnv env e with
  | .ok _ => none
  | .error err =>
      some { Stage := "parse", Endpoint := e, Error := err, Timestamp := env.now }

/-- Inductive invariant of the synchronisation skeleton with `w` parse
workers. -/
def syncInv (w : Nat) (s : SyncState) : Prop :=
  (s.rawClosed = true → s.fetchersRemaining = 0) ∧
  (s.parsersRemaining < w → s.rawClosed = true ∧ s.rawPending = 0) ∧
  ((s.parsedClosed = true ∨ s.errClosed = true) → s.parsersRemaining = 0)

/-! ## Concrete run data used by witnesses and counterexamples -/

def demoUser : User := { ID := 1, Name := "Ana", Email := "ana@mail.example" }

def demoPosts : List Post :=
  [{ ID := 11, Title := "a", Body := "x", UserID := 1 },
   { ID := 12, Title := "b", Body := "y", UserID := 1 },
   { ID := 13, Title := "c", Body := "z", UserID := 1 }]

def demoOps : List MergeOp := [.addUsers [demoUser], .addPosts demoPosts]

def cexPost : Post := { ID := 1, Title := "t", Body := "b", UserID := 7 }

def cexPostBatch : ParsedData :=
  { Data := .posts [cexPost], Endpoint := GET_POSTS, TypeTag := "post" }

def cexDupUsersBatch : ParsedData :=
  { Data := .users [{ ID := 5, Name := "a", Email := "e1" },
                    { ID := 5, Name := "b", Email := "e2" }],
    Endpoint := GET_USERS, TypeTag := "user" }

def wBatches : List ParsedData :=
  [{ Data := .users [demoUser], Endpoint := GET_USERS, TypeTag := "user" },
   cexPostBatch]

/-- An environment in which every fetch succeeds with an empty body,
five decoders accept that body and the todos decoder rejects it. -/
def wEnv : Env :=
  { fetch := fun _ => .res 200 (.ok [])
    dec :=
      { users := fun _ => .ok []
        posts := fun _ => .ok []
        comments := fun _ => .ok []
        albums := fun _ => .ok []
        photos := fun _ => .ok []
        todos := fun _ => .error "invalid character" }
    now := 0 }

/-! ## Helper lemmas: how each merge operation acts on each field -/

theorem AddUsers_eq (ad : AggregatedData) (users : List User) :
    ad.AddUsers users =
      { ad with Users := users.foldl (fun m u => insertAt m u.ID u) ad.Users } := by
  induction users generalizing ad with
  | nil => rfl
  | cons u rest ih => simp [AggregatedData.AddUsers, List.foldl_cons] at ih ⊢; exact ih _

theorem AddPosts_eq (ad : AggregatedData) (posts : List Post) :
    ad.AddPosts posts =
      { ad with
        Posts := posts.foldl (fun m p => appendAt m p.UserID p) ad.Posts,
        PostsByUser := posts.foldl (fun m p => appendAt m p.UserID p) ad.PostsByUser } := by
  induction posts generalizing ad with
  | nil => rfl
  | cons p rest ih => simp [AggregatedData.AddPosts, List.foldl_cons] at ih ⊢; exact ih _

theorem AddAlbums_eq (ad : AggregatedData) (albums : List Album) :
    ad.AddAlbums albums =
      { ad with
        Albums := albums.foldl (fun m a => appendAt m a.UserID a) ad.Albums,
        AlbumsByUser := albums.foldl (fun m a => appendAt m a.UserID a) ad.AlbumsByUser } := by
  induction albums generalizing ad with
  | nil => rfl
  | cons a rest ih => simp [AggregatedData.AddAlbums, List.foldl_cons] at ih ⊢; exact ih _

theorem AddTodos_eq (ad : AggregatedData) (todos : List Todo) :
    ad.AddTodos todos =
      { ad with Todos := todos.foldl (fun m t => appendAt m t.UserID t) ad.Todos } := by
  induction todos generalizing ad with
  | nil => rfl
  | cons t rest ih => simp [AggregatedData.AddTodos, List.foldl_cons] at ih ⊢; exact ih _

theorem AddComments_eq (ad : AggregatedData) (comments : List Comment) :
    ad.AddComments comments =
      { ad with Comments := comments.foldl (fun m c => appendAt m c.PostID c) ad.Comments } := by
  induction comments generalizing ad with
  | nil => rfl
  | cons c rest ih => simp [AggregatedData.AddComments, List.foldl_cons] at ih ⊢; exact ih _

theorem AddPhotos_eq (ad : AggregatedData) (photos : List Photo) :
    ad.AddPhotos photos =
      { ad with Photos := photos.foldl (fun m p => appendAt m p.AlbumID p) ad.Photos } := by
  induction photos generalizing ad with
  | nil => rfl
  | cons p rest ih => simp [AggregatedData.AddPhotos, List.foldl_cons] at ih ⊢; exact ih _

/-! ## Helper lemmas: sizes of the embedded Go maps -/

theorem bucketSizes_appendAt {α : Type} (m : List (Int × List α)) (k : Int) (v : α) :
    bucketSizes (appendAt m k v) = bucketSizes m + 1 := by
  induction m with
  | nil => simp [appendAt, bucketSizes]
  | cons e rest ih =>
      by_cases h : e.1 = k <;>
        simp [appendAt, bucketSizes, h, List.map_cons, List.sum_cons] at ih ⊢ <;>
        omega

theorem bucketSizes_foldl_appendAt {α : Type} (key : α → Int) (l : List α)
    (m : List (Int × List α)) :
    bucketSizes (l.foldl (fun m x => appendAt m (key x) x) m) = bucketSizes m + l.length := by
  induction l generalizing m with
  | nil => simp
  | cons x rest ih => simp [List.foldl_cons, ih, bucketSizes_appendAt]; omega

theorem insertAt_notMem {α : Type} (m : List (Int × α)) (k : Int) (v : α)
    (h : k ∉ keysOf m) : insertAt m k v = m ++ [(k, v)] := by
  induction m with
  | nil => rfl
  | cons e rest ih =>
      simp [keysOf] at h
      simp [insertAt, Ne.symm h.1, ih (by simp [keysOf, h.2])]

theorem insertAll_users (users : List User) (m : List (Int × User))
    (h : (keysOf m ++ users.map (fun u => u.ID)).Nodup) :
    (users.foldl (fun m u => insertAt m u.ID u) m).length = m.length + users.length ∧
      keysOf (users.foldl (fun m u => insertAt m u.ID u) m) =
        keysOf m ++ users.map (fun u => u.ID) := by
  induction users generalizing m with
  | nil => simp
  | cons u rest ih =>
      have hnotmem : u.ID ∉ keysOf m := by
        rcases List.nodup_append.mp h with ⟨h1, h2, hdisj⟩
        intro hmem
        exact hdisj hmem (by simp)
      have hrw : insertAt m u.ID u = m ++ [(u.ID, u)] := insertAt_notMem m u.ID u hnotmem
      have hkeys : keysOf (m ++ [(u.ID, u)]) = keysOf m ++ [u.ID] := by
        simp [keysOf]
      have hnodup2 : (keysOf (m ++ [(u.ID, u)]) ++ rest.map (fun u => u.ID)).Nodup := by
        rw [hkeys, ← List.append_cons]
        simpa using h
      have hrec := ih (m ++ [(u.ID, u)]) hnodup2
      constructor
      · rw [List.foldl_cons, hrw]
        rw [hrec.1]
        simp
        omega
      · rw [List.foldl_cons, hrw, hrec.2, hkeys, ← List.append_cons]
        simp

/-! ## Helper lemmas: counting the records a drain stores -/

/-- Ids of the Owner records a batch carries (empty for other kinds). -/
theorem drain_counts (batches : List ParsedData) (ad : AggregatedData)
    (h : (keysOf ad.Users ++ allUserIDs batches).Nodup) :
    totalPrimary (batches.foldl mergeParsed ad) = totalPrimary ad + totalRecords batches ∧
      keysOf (batches.foldl mergeParsed ad).Users = keysOf ad.Users ++ allUserIDs batches := by
  induction batches generalizing ad with
  | nil => simp [allUserIDs, totalRecords]
  | cons b rest ih =>
      have hcons : allUserIDs (b :: rest) = userIDsOf b ++ allUserIDs rest := by
        simp [allUserIDs]
      rw [hcons] at h
      cases hdata : b.Data with
      | users v =>
          have hids : userIDsOf b = v.map (fun u => u.ID) := by
            simp [userIDsOf, hdata]
          rw [hids] at h
          have hsub : (keysOf ad.Users ++ v.map (fun u => u.ID)).Nodup := by
            have hs : (keysOf ad.Users ++ v.map (fun u => u.ID)).Sublist
                ((keysOf ad.Users ++ v.map (fun u => u.ID)) ++ allUserIDs rest) :=
              List.sublist_append_left _ _
            exact List.Nodup.sublist hs (by rwa [List.append_assoc])
          have hins := insertAll_users v ad.Users hsub
          have hmerge : mergeParsed ad b =
              { ad with Users := v.foldl (fun m u => insertAt m u.ID u) ad.Users } := by
            simp [mergeParsed, hdata, AddUsers_eq]
          rw [List.foldl_cons, hmerge]
          have hnodup2 : (keysOf (v.foldl (fun m u => insertAt m u.ID u) ad.Users) ++
              allUserIDs rest).Nodup := by
            rw [hins.2, List.append_assoc]
            exact h
          have hrec := ih
            { ad with Users := v.foldl (fun m u => insertAt m u.ID u) ad.Users }
            (by simpa using hnodup2)
          constructor
          · rw [hrec.1]
            simp only [totalPrimary, totalRecords, List.map_cons, List.sum_cons,
              payloadSize, hdata]
            rw [hins.1]
            omega
          · rw [hrec.2, hins.2, List.append_assoc, hcons, hids]
      | posts v =>
          have hmerge : mergeParsed ad b =
              { ad with
                Posts := v.foldl (fun m p => appendAt m p.UserID p) ad.Posts,
                PostsByUser := v.foldl (fun m p => appendAt m p.UserID p) ad.PostsByUser } := by
            simp [mergeParsed, hdata, AddPosts_eq]
          rw [List.foldl_cons, hmerge]
          have hrec := ih
            { ad with
              Posts := v.foldl (fun m p => appendAt m p.UserID p) ad.Posts,
              PostsByUser := v.foldl (fun m p => appendAt m p.UserID p) ad.PostsByUser }
            (by simpa [userIDsOf, hdata] using h)
          refine ⟨?_, by rw [hrec.2]; simp [allUserIDs, userIDsOf, hdata]⟩
          rw [hrec.1]
          simp only [totalPrimary, totalRecords, List.map_cons, List.sum_cons,
            payloadSize, hdata]
          rw [bucketSizes_foldl_appendAt]
          omega
      | comments v =>
          have hmerge : mergeParsed ad b =
              { ad with Comments := v.foldl (fun m c => appendAt m c.PostID c) ad.Comments } := by
            simp [mergeParsed, hdata, AddComments_eq]
          rw [List.foldl_cons, hmerge]
          have hrec := ih
            { ad with Comments := v.foldl (fun m c => appendAt m c.PostID c) ad.Comments }
            (by simpa [userIDsOf, hdata] using h)
          refine ⟨?_, by rw [hrec.2]; simp [allUserIDs, userIDsOf, hdata]⟩
          rw [hrec.1]
          simp only [totalPrimary, totalRecords, List.map_cons, List.sum_cons,
            payloadSize, hdata]
          rw [bucketSizes_foldl_appendAt]
          omega
      | albums v =>
          have hmerge : mergeParsed ad b =
              { ad with
                Albums := v.foldl (fun m a => appendAt m a.UserID a) ad.Albums,
                AlbumsByUser := v.foldl (fun m a => appendAt m a.UserID a) ad.AlbumsByUser } := by
            simp [mergeParsed, hdata, AddAlbums_eq]
          rw [List.foldl_cons, hmerge]
          have hrec := ih
            { ad with
              Albums := v.foldl (fun m a => appendAt m a.UserID a) ad.Albums,
              AlbumsByUser := v.foldl (fun m a => appendAt m a.UserID a) ad.AlbumsByUser }
            (by simpa [userIDsOf, hdata] using h)
          refine ⟨?_, by rw [hrec.2]; simp [allUserIDs, userIDsOf, hdata]⟩
          rw [hrec.1]
          simp only [totalPrimary, totalRecords, List.map_cons, List.sum_cons,
            payloadSize, hdata]
          rw [bucketSizes_foldl_appendAt]
          omega
      | photos v =>
          have hmerge : mergeParsed ad b =
              { ad with Photos := v.foldl (fun m p => appendAt m p.AlbumID p) ad.Photos } := by
            simp [mergeParsed, hdata, AddPhotos_eq]
          rw [List.foldl_cons, hmerge]
          have hrec := ih
            { ad with Photos := v.foldl (fun m p => appendAt m p.AlbumID p) ad.Photos }
            (by simpa [userIDsOf, hdata] using h)
          refine ⟨?_, by rw [hrec.2]; simp [allUserIDs, userIDsOf, hdata]⟩
          rw [hrec.1]
          simp only [totalPrimary, totalRecords, List.map_cons, List.sum_cons,
            payloadSize, hdata]
          rw [bucketSizes_foldl_appendAt]
          omega
      | todos v =>
          have hmerge : mergeParsed ad b =
              { ad with Todos := v.foldl (fun m t => appendAt m t.UserID t) ad.Todos } := by
            simp [mergeParsed, hdata, AddTodos_eq]
          rw [List.foldl_cons, hmerge]
          have hrec := ih
            { ad with Todos := v.foldl (fun m t => appendAt m t.UserID t) ad.Todos }
            (by simpa [userIDsOf, hdata] using h)
          refine ⟨?_, by rw [hrec.2]; simp [allUserIDs, userIDsOf, hdata]⟩
          rw [hrec.1]
          simp only [totalPrimary, totalRecords, List.map_cons, List.sum_cons,
            payloadSize, hdata]
          rw [bucketSizes_foldl_appendAt]
          omega

/-! ## Helper lemmas: the mirror indexes -/

theorem mergeParsed_eq_applyOp (ad : AggregatedData) (b : ParsedData) :
    mergeParsed ad b = applyOp ad (opOf b) := by
  cases hdata : b.Data <;> simp [mergeParsed, applyOp, opOf, hdata]

theorem foldl_mergeParsed_eq (batches : List ParsedData) (ad : AggregatedData) :
    batches.foldl mergeParsed ad = (batches.map opOf).foldl applyOp ad := by
  induction batches generalizing ad with
  | nil => rfl
  | cons b rest ih => simp [List.foldl_cons, mergeParsed_eq_applyOp, ih]

theorem mirror_foldl (ops : List MergeOp) (ad : AggregatedData)
    (hp : ad.PostsByUser = ad.Posts) (ha : ad.AlbumsByUser = ad.Albums) :
    (ops.foldl applyOp ad).PostsByUser = (ops.foldl applyOp ad).Posts ∧
      (ops.foldl applyOp ad).AlbumsByUser = (ops.foldl applyOp ad).Albums := by
  induction ops generalizing ad with
  | nil => exact ⟨hp, ha⟩
  | cons op rest ih =>
      rw [List.foldl_cons]
      cases op with
      | addUsers v =>
          exact ih _ (by simp [applyOp, AddUsers_eq, hp]) (by simp [applyOp, AddUsers_eq, ha])
      | addPosts v =>
          exact ih _ (by simp [applyOp, AddPosts_eq, hp]) (by simp [applyOp, AddPosts_eq, ha])
      | addComments v =>
          exact ih _ (by simp [applyOp, AddComments_eq, hp])
            (by simp [applyOp, AddComments_eq, ha])
      | addAlbums v =>
          exact ih _ (by simp [applyOp, AddAlbums_eq, hp]) (by simp [applyOp, AddAlbums_eq, ha])
      | addPhotos v =>
          exact ih _ (by simp [applyOp, AddPhotos_eq, hp]) (by simp [applyOp, AddPhotos_eq, ha])
      | addTodos v =>
          exact ih _ (by simp [applyOp, AddTodos_eq, hp]) (by simp [applyOp, AddTodos_eq, ha])

theorem buildStore_mirror (ops : List MergeOp) :
    (buildStore ops).PostsByUser = (buildStore ops).Posts ∧
      (buildStore ops).AlbumsByUser = (buildStore ops).Albums :=
  mirror_foldl ops NewAggregatedData rfl rfl

theorem drain_mirror (batches : List ParsedData) :
    (batches.foldl mergeParsed NewAggregatedData).PostsByUser =
        (batches.foldl mergeParsed NewAggregatedData).Posts ∧
      (batches.foldl mergeParsed NewAggregatedData).AlbumsByUser =
        (batches.foldl mergeParsed NewAggregatedData).Albums := by
  rw [foldl_mergeParsed_eq]
  exact mirror_foldl _ NewAggregatedData rfl rfl

/-! ## Helper lemmas: per-kind bucket totals of a drain -/

theorem drain_posts_albums (batches : List ParsedData) (ad : AggregatedData) :
    bucketSizes (batches.foldl mergeParsed ad).Posts =
        bucketSizes ad.Posts + postsCount batches ∧
      bucketSizes (batches.foldl mergeParsed ad).Albums =
        bucketSizes ad.Albums + albumsCount batches := by
  induction batches generalizing ad with
  | nil => simp [postsCount, albumsCount]
  | cons b rest ih =>
      have hcnt : postsCount (b :: rest) = postsCountOf b + postsCount rest := by
        simp [postsCount]
      have hcnt2 : albumsCount (b :: rest) = albumsCountOf b + albumsCount rest := by
        simp [albumsCount]
      rw [List.foldl_cons, hcnt, hcnt2]
      cases hdata : b.Data with
      | users v =>
          have hm : mergeParsed ad b =
              { ad with Users := v.foldl (fun m u => insertAt m u.ID u) ad.Users } := by
            simp [mergeParsed, hdata, AddUsers_eq]
          rw [hm]
          have := ih { ad with Users := v.foldl (fun m u => insertAt m u.ID u) ad.Users }
          simp only [postsCountOf, albumsCountOf, hdata] at this ⊢
          simpa using this
      | posts v =>
          have hm : mergeParsed ad b =
              { ad with
                Posts := v.foldl (fun m p => appendAt m p.UserID p) ad.Posts,
                PostsByUser := v.foldl (fun m p => appendAt m p.UserID p) ad.PostsByUser } := by
            simp [mergeParsed, hdata, AddPosts_eq]
          rw [hm]
          have := ih { ad with
            Posts := v.foldl (fun m p => appendAt m p.UserID p) ad.Posts,
            PostsByUser := v.foldl (fun m p => appendAt m p.UserID p) ad.PostsByUser }
          simp only [postsCountOf, albumsCountOf, hdata] at this ⊢
          simp only [bucketSizes_foldl_appendAt] at this
          constructor
          · rw [this.1]; omega
          · rw [this.2]; omega
      | comments v =>
          have hm : mergeParsed ad b =
              { ad with Comments := v.foldl (fun m c => appendAt m c.PostID c) ad.Comments } := by
            simp [mergeParsed, hdata, AddComments_eq]
          rw [hm]
          have := ih { ad with Comments := v.foldl (fun m c => appendAt m c.PostID c) ad.Comments }
          simp only [postsCountOf, albumsCountOf, hdata] at this ⊢
          simpa using this
      | albums v =>
          have hm : mergeParsed ad b =
              { ad with
                Albums := v.foldl (fun m a => appendAt m a.UserID a) ad.Albums,
                AlbumsByUser := v.foldl (fun m a => appendAt m a.UserID a) ad.AlbumsByUser } := by
            simp [mergeParsed, hdata, AddAlbums_eq]
          rw [hm]
          have := ih { ad with
            Albums := v.foldl (fun m a => appendAt m a.UserID a) ad.Albums,
            AlbumsByUser := v.foldl (fun m a => appendAt m a.UserID a) ad.AlbumsByUser }
          simp only [postsCountOf, albumsCountOf, hdata] at this ⊢
          simp only [bucketSizes_foldl_appendAt] at this
          constructor
          · rw [this.1]; omega
          · rw [this.2]; omega
      | photos v =>
          have hm : mergeParsed ad b =
              { ad with Photos := v.foldl (fun m p => appendAt m p.AlbumID p) ad.Photos } := by
            simp [mergeParsed, hdata, AddPhotos_eq]
          rw [hm]
          have := ih { ad with Photos := v.foldl (fun m p => appendAt m p.AlbumID p) ad.Photos }
          simp only [postsCountOf, albumsCountOf, hdata] at this ⊢
          simpa using this
      | todos v =>
          have hm : mergeParsed ad b =
              { ad with Todos := v.foldl (fun m t => appendAt m t.UserID t) ad.Todos } := by
            simp [mergeParsed, hdata, AddTodos_eq]
          rw [hm]
          have := ih { ad with Todos := v.foldl (fun m t => appendAt m t.UserID t) ad.Todos }
          simp only [postsCountOf, albumsCountOf, hdata] at this ⊢
          simpa using this

/-! ## Helper lemmas: the two pipeline stages -/

theorem fetchStage_cons (e : String) (rest : List String) (env : Env) :
    fetchStage (e :: rest) env =
      ((fetchData e (env.fetch e) "fetch" env.now).1 ++ (fetchStage rest env).1,
        (fetchData e (env.fetch e) "fetch" env.now).2 ++ (fetchStage rest env).2) := by
  simp [fetchStage]

theorem parseStage_cons (raw : RawResponse) (rest : List RawResponse) (env : Env) :
    parseStage (raw :: rest) env =
      ((parseWorkerStep env.dec raw env.now).1 ++ (parseStage rest env).1,
        (parseWorkerStep env.dec raw env.now).2 ++ (parseStage rest env).2) := by
  simp [parseStage]

theorem fetchStage_ok (es : List String) (env : Env)
    (h : ∀ e ∈ es, fetchOk (env.fetch e) = true) :
    fetchStage es env =
      (es.map (fun e => { Endpoint := e, Data := bodyOfEnv env e }), []) := by
  induction es with
  | nil => rfl
  | cons e rest ih =>
      have he := h e (by simp)
      have hrest := ih (fun x hx => h x (by simp [hx]))
      rw [fetchStage_cons, hrest]
      cases hf : env.fetch e with
      | getErr er => rw [hf] at he; simp [fetchOk] at he
      | res st rd =>
          cases rd with
          | error er => rw [hf] at he; simp [fetchOk] at he
          | ok d => simp [fetchData, hf, bodyOfEnv]

theorem parseWorkerStep_eq (dec : Decoders) (d : ByteSeq) (now : Nat) (e : String)
    (he : e ∈ mainEndpoints) :
    parseWorkerStep dec { Endpoint := e, Data := d } now =
      parseData (decodeAt dec e d) { Endpoint := e, Data := d } "parse" now := by
  fin_cases he <;> rfl

theorem parseStage_char (es : List String) (env : Env)
    (hsub : ∀ e ∈ es, e ∈ mainEndpoints) :
    parseStage (es.map (fun e => { Endpoint := e, Data := bodyOfEnv env e })) env =
      (es.filterMap (batchOfEnv env), es.filterMap (perrOfEnv env)) := by
  induction es with
  | nil => rfl
  | cons e rest ih =>
      have he := hsub e (by simp)
      have hrest := ih (fun x hx => hsub x (by simp [hx]))
      rw [List.map_cons, parseStage_cons, hrest,
        parseWorkerStep_eq env.dec (bodyOfEnv env e) env.now e he]
      have hda : decodeAt env.dec e (bodyOfEnv env e) = decodeOfEnv env e := rfl
      rw [hda]
      cases hdec : decodeOfEnv env e with
      | ok data => simp [parseData, batchOfEnv, perrOfEnv, hdec]
      | error err => simp [parseData, batchOfEnv, perrOfEnv, hdec]

theorem perr_length (es : List String) (env : Env) :
    (es.filterMap (perrOfEnv env)).length =
      (es.filter (fun e => !decodeOk env e)).length := by
  induction es with
  | nil => rfl
  | cons e rest ih =>
      cases hdec : decodeOfEnv env e <;>
        simp [perrOfEnv, decodeOk, hdec, List.filterMap_cons, List.filter_cons, ih]

theorem perr_stage (es : List String) (env : Env) :
    ∀ err ∈ es.filterMap (perrOfEnv env), err.Stage = "parse" := by
  induction es with
  | nil => simp
  | cons e rest ih =>
      intro err herr
      cases hdec : decodeOfEnv env e with
      | ok data =>
          have hnone : perrOfEnv env e = none := by simp [perrOfEnv, hdec]
          rw [List.filterMap_cons, hnone] at herr
          exact ih err herr
      | error msg =>
          have hsome : perrOfEnv env e =
              some { Stage := "parse", Endpoint := e, Error := msg, Timestamp := env.now } := by
            simp [perrOfEnv, hdec]
          rw [List.filterMap_cons, hsome] at herr
          rcases List.mem_cons.mp herr with hl | hr
          · rw [hl]
          · exact ih err hr

theorem filter_length_split (es : List String) (p : String → Bool) :
    (es.filter p).length + (es.filter (fun e => !p e)).length = es.length := by
  induction es with
  | nil => rfl
  | cons e rest ih =>
      cases hp : p e <;> simp [List.filter_cons, hp] <;> omega

theorem tallyStage_append (a b : List PipelineError) (s : String) :
    tallyStage (a ++ b) s = tallyStage a s + tallyStage b s := by
  simp [tallyStage, List.filter_append]

theorem tallyStage_eq_of_all (errs : List PipelineError) (t : String)
    (h : ∀ e ∈ errs, e.Stage = t) :
    tallyStage errs t = errs.length := by
  induction errs with
  | nil => rfl
  | cons e rest ih =>
      have h1 := h e (by simp)
      have h2 := ih (fun x hx => h x (by simp [hx]))
      simp [tallyStage, List.filter_cons, h1] at h2 ⊢
      exact h2

theorem tallyStage_zero_of_all (errs : List PipelineError) (s t : String)
    (hne : t ≠ s) (h : ∀ e ∈ errs, e.Stage = t) :
    tallyStage errs s = 0 := by
  induction errs with
  | nil => rfl
  | cons e rest ih =>
      have h1 := h e (by simp)
      have h2 := ih (fun x hx => h x (by simp [hx]))
      simp [tallyStage, List.filter_cons, h1, hne] at h2 ⊢
      exact h2

/-! ## Helper lemmas: the synchronisation skeleton -/

theorem syncInv_init (n w : Nat) : syncInv w (initSync n w) :=
  ⟨fun hc => by simp [initSync] at hc,
   fun hp => absurd hp (lt_irrefl w),
   fun hc => by simp [initSync] at hc⟩

theorem syncInv_step {w : Nat} {s t : SyncState} (hinv : syncInv w s)
    (hstep : SyncStep s t) : syncInv w t := by
  obtain ⟨h1, h2, h3⟩ := hinv
  cases hstep with
  | fetchEmit k hk =>
      refine ⟨fun hc => ?_, fun hp => ?_, fun hc => h3 hc⟩
      · have h0 := h1 hc
        show k = 0
        omega
      · refine ⟨(h2 hp).1, ?_⟩
        have h0 := h1 (h2 hp).1
        show s.rawPending + 1 = 0
        omega
  | fetchFail k hk =>
      refine ⟨fun hc => ?_, fun hp => h2 hp, fun hc => h3 hc⟩
      have h0 := h1 hc
      show k = 0
      omega
  | closeRaw hf hr =>
      refine ⟨fun _ => hf, fun hp => ⟨rfl, (h2 hp).2⟩, fun hc => h3 hc⟩
  | consumeRaw k hk =>
      refine ⟨fun hc => h1 hc, fun hp => ⟨(h2 hp).1, ?_⟩, fun hc => h3 hc⟩
      have h0 := (h2 hp).2
      show k = 0
      omega
  | parserExit k hrc hrp hpk =>
      refine ⟨fun hc => h1 hc, fun _ => ⟨hrc, hrp⟩, fun hc => ?_⟩
      have h0 := h3 hc
      show k = 0
      omega
  | closeParsedErr hp0 hpc =>
      exact ⟨fun hc => h1 hc, fun hp => h2 hp, fun _ => hp0⟩

theorem syncInv_reach {n w : Nat} {s : SyncState}
    (h : SyncReach (initSync n w) s) : syncInv w s := by
  induction h with
  | refl => exact syncInv_init n w
  | step hr hs ih => exact syncInv_step ih hs

theorem zero_source_inv {w : Nat} {s : SyncState}
    (h : SyncReach (initSync 0 w) s) :
    s.fetchersRemaining = 0 ∧ s.rawPending = 0 ∧ s.parsedClosed = s.errClosed := by
  induction h with
  | refl => exact ⟨rfl, rfl, rfl⟩
  | step hr hs ih =>
      obtain ⟨hf, hp, hpe⟩ := ih
      cases hs with
      | fetchEmit k hk => rw [hf] at hk; exact absurd hk.symm (Nat.succ_ne_zero k)
      | fetchFail k hk => rw [hf] at hk; exact absurd hk.symm (Nat.succ_ne_zero k)
      | closeRaw g1 g2 => exact ⟨hf, hp, hpe⟩
      | consumeRaw k hk => rw [hp] at hk; exact absurd hk.symm (Nat.succ_ne_zero k)
      | parserExit k g1 g2 g3 => exact ⟨hf, hp, hpe⟩
      | closeParsedErr g1 g2 => exact ⟨hf, hp, rfl⟩

theorem zero_source_progress {w : Nat} {s : SyncState}
    (h : SyncReach (initSync 0 w) s) (hne : s ≠ doneSync) :
    ∃ t, SyncStep s t := by
  obtain ⟨hf, hp, hpe⟩ := zero_source_inv h
  by_cases hrc : s.rawClosed = true
  · rcases hk : s.parsersRemaining with _ | k
    · by_cases hpc : s.parsedClosed = true
      · exfalso
        apply hne
        have he : s.errClosed = true := by rw [← hpe]; exact hpc
        cases s
        simp_all [doneSync]
      · have hpc2 : s.parsedClosed = false := by
          revert hpc; cases s.parsedClosed <;> simp
        exact ⟨_, SyncStep.closeParsedErr s hk hpc2⟩
    · exact ⟨_, SyncStep.parserExit s k hrc hp hk⟩
  · have hrc2 : s.rawClosed = false := by
      revert hrc; cases s.rawClosed <;> simp
    exact ⟨_, SyncStep.closeRaw s hf hrc2⟩

theorem syncMeasure_decreases {s t : SyncState} (h : SyncStep s t) :
    syncMeasure t < syncMeasure s := by
  cases h with
  | fetchEmit k hk => simp [syncMeasure, hk]; omega
  | fetchFail k hk => simp [syncMeasure, hk]
  | closeRaw hf hr => simp [syncMeasure, hf, hr]
  | consumeRaw k hk => simp [syncMeasure, hk]
  | parserExit k hrc hrp hpk => simp [syncMeasure, hpk]
  | closeParsedErr hp0 hpc => simp [syncMeasure, hp0, hpc]

/-! ## The claims -/

/-- C10: starting from a freshly constructed `AggregatedData`, after any
sequence of the six merge operations, every key's `Posts` bucket equals
its `PostsByUser` bucket and every key's `Albums` bucket equals its
`AlbumsByUser` bucket; the two post indexes and the two album indexes
are exact mirrors, so every merged `Post` and `Album` is physically held
twice in the store. -/
theorem C10_mirror_invariant (ops : List MergeOp) :
    (∀ k : Int, lookupList (buildStore ops).Posts k =
        lookupList (buildStore ops).PostsByUser k) ∧
    (∀ k : Int, lookupList (buildStore ops).Albums k =
        lookupList (buildStore ops).AlbumsByUser k) ∧
    (buildStore ops).PostsByUser = (buildStore ops).Posts ∧
    (buildStore ops).AlbumsByUser = (buildStore ops).Albums := by
  obtain ⟨hp, ha⟩ := buildStore_mirror ops
  exact ⟨fun k => by rw [hp], fun k => by rw [ha], hp, ha⟩

/-- C7: enrichment is read-only and idempotent — the pass returns the
store it was given unchanged, and running it twice over the same
finished store changes nothing and yields the same summary list both
times. -/
theorem C7_enrichment_idempotent (ad : AggregatedData) :
    (enrichPass ad).1 = ad ∧
    (enrichPass (enrichPass ad).1).1 = ad ∧
    (enrichPass (enrichPass ad).1).2 = (enrichPass ad).2 :=
  ⟨rfl, rfl, rfl⟩

/-- C2: one retrieval attempt emits exactly one outcome: either exactly
one `RawPayload` tagged with the source identifier (and no error), or
exactly one `PipelineError` carrying the stage tag and the source
identifier (and no payload) — never both, never neither.  `main` passes
`"fetch"` as the retrieval stage tag. -/
theorem C2_fetch_exactly_one (endpoint stage : String) (outcome : FetchOutcome)
    (now : Nat) :
    ((∃ d, fetchData endpoint outcome stage now =
        ([{ Endpoint := endpoint, Data := d }], [])) ∧
      ¬∃ err, fetchData endpoint outcome stage now =
        ([], [{ Stage := stage, Endpoint := endpoint, Error := err, Timestamp := now }])) ∨
    ((∃ err, fetchData endpoint outcome stage now =
        ([], [{ Stage := stage, Endpoint := endpoint, Error := err, Timestamp := now }])) ∧
      ¬∃ d, fetchData endpoint outcome stage now =
        ([{ Endpoint := endpoint, Data := d }], [])) := by
  cases outcome with
  | getErr e =>
      right
      refine ⟨⟨e, rfl⟩, ?_⟩
      rintro ⟨d, hd⟩
      simp [fetchData] at hd
  | res st rd =>
      cases rd with
      | error e =>
          right
          refine ⟨⟨e, rfl⟩, ?_⟩
          rintro ⟨d, hd⟩
          simp [fetchData] at hd
      | ok d =>
          left
          refine ⟨⟨d, rfl⟩, ?_⟩
          rintro ⟨err, herr⟩
          simp [fetchData] at herr

/-- C3 fails on the code: `fetchData` in the final pipeline never
inspects `res.StatusCode`, so a response with a non-success status whose
body reads fine is emitted as a `RawPayload` and produces no
`PipelineError` (an earlier iteration of the program, part_000, does
perform the status check; the pipeline under specification does not). -/
theorem C3_counterexample :
    fetchData GET_USERS (FetchOutcome.res 404 (Except.ok [123])) "fetch" 0 =
      ([{ Endpoint := GET_USERS, Data := [123] }], []) ∧
    ∀ err : PipelineError,
      err ∉ (fetchData GET_USERS (FetchOutcome.res 404 (Except.ok [123])) "fetch" 0).2 :=
  ⟨rfl, by intro err h; simp [fetchData] at h⟩

/-- C3 (amended): a retrieval attempt that fails because `client.Get`
returns an error (network failure or the request timeout) or because
reading the response body fails emits exactly one `PipelineError`
carrying the stage tag, the source identifier and the underlying cause,
and no `RawPayload`; a non-success HTTP status is not treated as a
failure — the read body is emitted as a `RawPayload` regardless of
status. -/
theorem C3_amended (endpoint stage : String) (now : Nat) (outcome : FetchOutcome) :
    (∀ e, outcome = .getErr e →
      fetchData endpoint outcome stage now =
        ([], [{ Stage := stage, Endpoint := endpoint, Error := e, Timestamp := now }])) ∧
    (∀ st e, outcome = .res st (.error e) →
      fetchData endpoint outcome stage now =
        ([], [{ Stage := stage, Endpoint := endpoint, Error := e, Timestamp := now }])) ∧
    (∀ st d, outcome = .res st (.ok d) →
      fetchData endpoint outcome stage now =
        ([{ Endpoint := endpoint, Data := d }], [])) := by
  refine ⟨fun e h => ?_, fun st e h => ?_, fun st d h => ?_⟩ <;> (subst h; rfl)

theorem C3_amended_witness :
    fetchData GET_POSTS (FetchOutcome.getErr "context deadline exceeded") "fetch" 5 =
      ([], [{ Stage := "fetch", Endpoint := GET_POSTS,
              Error := "context deadline exceeded", Timestamp := 5 }]) ∧
    fetchData GET_POSTS (FetchOutcome.res 200 (Except.error "unexpected EOF")) "fetch" 5 =
      ([], [{ Stage := "fetch", Endpoint := GET_POSTS,
              Error := "unexpected EOF", Timestamp := 5 }]) :=
  ⟨(C3_amended GET_POSTS "fetch" 5 (FetchOutcome.getErr "context deadline exceeded")).1
      "context deadline exceeded" rfl,
   (C3_amended GET_POSTS "fetch" 5 (FetchOutcome.res 200
      (Except.error "unexpected EOF"))).2.1 200 "unexpected EOF" rfl⟩

/-- C4: a parse worker consuming one raw payload produces exactly one of
the two outcomes: on decode success exactly one `ParsedBatch` for the
payload's source (and no error), and on decode failure exactly one
`PipelineError` with the stage tag, the source identifier and the decode
error (and no batch).  The workers pass `"parse"` as the stage tag. -/
theorem C4_parse_exactly_one (rawData : RawResponse) (stage : String) (now : Nat)
    (unmarshal : Except GoError PayloadData) :
    (∀ data, unmarshal = .ok data →
      parseData unmarshal rawData stage now =
        ([{ Data := data, Endpoint := rawData.Endpoint,
            TypeTag := getType rawData.Endpoint }], [])) ∧
    (∀ err, unmarshal = .error err →
      parseData unmarshal rawData stage now =
        ([], [{ Stage := stage, Endpoint := rawData.Endpoint,
                Error := err, Timestamp := now }])) := by
  refine ⟨fun data h => ?_, fun err h => ?_⟩ <;> (subst h; rfl)

theorem C4_parse_exactly_one_witness :
    parseData (Except.ok (PayloadData.users [])) { Endpoint := GET_USERS, Data := [] }
        "parse" 3 =
      ([{ Data := PayloadData.users [], Endpoint := GET_USERS,
          TypeTag := getType GET_USERS }], []) ∧
    parseData (Except.error "invalid character") { Endpoint := GET_USERS, Data := [] }
        "parse" 3 =
      ([], [{ Stage := "parse", Endpoint := GET_USERS,
              Error := "invalid character", Timestamp := 3 }]) :=
  ⟨(C4_parse_exactly_one { Endpoint := GET_USERS, Data := [] } "parse" 3
      (Except.ok (PayloadData.users []))).1 (PayloadData.users []) rfl,
   (C4_parse_exactly_one { Endpoint := GET_USERS, Data := [] } "parse" 3
      (Except.error "invalid character")).2 "invalid character" rfl⟩

/-- C5: for every Owner of a store finished by any sequence of merge
operations, enrichment produces the summary whose direct counts are the
sizes of that Owner's relationship buckets and whose transitive counts
sum the leaf-kind bucket sizes over that Owner's intermediate records
(comments over the Owner's posts, photos over the Owner's albums) —
stated as agreement with the specification-side `enrichSpec`, one
summary per stored Owner; and a store holding exactly one Owner with
three posts and no other records reports a post count of 3 and zero for
every other direct and transitive count. -/
theorem C5_enrichment_counts :
    (∀ ops : List MergeOp,
      (buildStore ops).GetEnrichedUsers =
        (buildStore ops).Users.map (fun e => enrichSpec (buildStore ops) e.2)) ∧
    (buildStore demoOps).GetEnrichedUsers =
      [{ ID := 1, Name := "Ana", Email := "ana@mail.example", PostCount := 3,
         AlbumCount := 0, TodoCount := 0, CommentCount := 0, PhotoCount := 0 }] := by
  constructor
  · intro ops
    obtain ⟨hp, ha⟩ := buildStore_mirror ops
    simp only [AggregatedData.GetEnrichedUsers, enrichSpec, hp, ha]
  · rfl

/-- C1 fails on the code: `AddPosts` and `AddAlbums` index every record
into two buckets (`Posts` and `PostsByUser`, `Albums` and
`AlbumsByUser`), so draining a single one-post batch stores the post
twice and the sum of all index-bucket sizes is 2, not 1; and the owner
index overwrites duplicated Owner ids, so a batch of two Owners sharing
an id stores only one record. -/
theorem C1_counterexample :
    totalIndexed ([cexPostBatch].foldl mergeParsed NewAggregatedData) ≠
      totalRecords [cexPostBatch] ∧
    cexPost ∈ lookupList ([cexPostBatch].foldl mergeParsed NewAggregatedData).Posts 7 ∧
    cexPost ∈
      lookupList ([cexPostBatch].foldl mergeParsed NewAggregatedData).PostsByUser 7 ∧
    totalIndexed ([cexDupUsersBatch].foldl mergeParsed NewAggregatedData) ≠
      totalRecords [cexDupUsersBatch] := by
  decide

/-- C1 (amended): after draining any batch sequence into a fresh store,
the record total over the six primary indexes (owner index plus the five
foreign-key indexes, the mirrors excluded) equals the total records
across the drained batches, provided no two parsed Owner records share
an id (the owner index overwrites on equal ids); each Post and each
Album is additionally held exactly once more by its mirror index, so the
sum over all eight index fields is the parsed total plus the number of
post and album records. -/
theorem C1_amended (batches : List ParsedData) (h : (allUserIDs batches).Nodup) :
    totalPrimary (batches.foldl mergeParsed NewAggregatedData) = totalRecords batches ∧
    totalIndexed (batches.foldl mergeParsed NewAggregatedData) =
      totalRecords batches + postsCount batches + albumsCount batches := by
  have hn : (keysOf NewAggregatedData.Users ++ allUserIDs batches).Nodup := by
    simpa [NewAggregatedData, keysOf] using h
  have hd := drain_counts batches NewAggregatedData hn
  have hm := drain_mirror batches
  have hpa := drain_posts_albums batches NewAggregatedData
  have h0 : totalPrimary NewAggregatedData = 0 := rfl
  have h1 : totalPrimary (batches.foldl mergeParsed NewAggregatedData) =
      totalRecords batches := by rw [hd.1, h0, Nat.zero_add]
  refine ⟨h1, ?_⟩
  have h2 : bucketSizes (batches.foldl mergeParsed NewAggregatedData).Posts =
      postsCount batches := by
    simpa [NewAggregatedData, bucketSizes] using hpa.1
  have h3 : bucketSizes (batches.foldl mergeParsed NewAggregatedData).Albums =
      albumsCount batches := by
    simpa [NewAggregatedData, bucketSizes] using hpa.2
  simp only [totalIndexed]
  rw [hm.1, hm.2, h1, h2, h3]

theorem C1_amended_witness :
    (allUserIDs wBatches).Nodup ∧
      (totalPrimary (wBatches.foldl mergeParsed NewAggregatedData) =
          totalRecords wBatches ∧
        totalIndexed (wBatches.foldl mergeParsed NewAggregatedData) =
          totalRecords wBatches + postsCount wBatches + albumsCount wBatches) :=
  ⟨by decide, C1_amended wBatches (by decide)⟩

/-- C6: in any run over the six configured sources in which every fetch
succeeds and exactly one source's payload fails to decode, the pipeline
still produces its summaries from the store built out of the batches of
the five sources that decoded, and the final tally is zero retrieval
(`"fetch"`) failures and exactly one parse failure. -/
theorem C6_one_parse_failure (env : Env)
    (hfetch : ∀ e ∈ mainEndpoints, fetchOk (env.fetch e) = true)
    (hone : (mainEndpoints.filter (fun e => !decodeOk env e)).length = 1) :
    (runPipeline mainEndpoints env).fetchErrTally = 0 ∧
    (runPipeline mainEndpoints env).parseErrTally = 1 ∧
    (mainEndpoints.filter (fun e => decodeOk env e)).length = 5 ∧
    (runPipeline mainEndpoints env).summaries =
      ((mainEndpoints.filterMap (batchOfEnv env)).foldl mergeParsed
        NewAggregatedData).GetEnrichedUsers := by
  have hfs := fetchStage_ok mainEndpoints env hfetch
  have hps := parseStage_char mainEndpoints env (fun e he => he)
  have hraws : (fetchStage mainEndpoints env).1 =
      mainEndpoints.map (fun e => { Endpoint := e, Data := bodyOfEnv env e }) := by
    rw [hfs]
  have hferr : (fetchStage mainEndpoints env).2 = [] := by rw [hfs]
  have hbatches : (parseStage (fetchStage mainEndpoints env).1 env).1 =
      mainEndpoints.filterMap (batchOfEnv env) := by
    rw [hraws, hps]
  have hperr : (parseStage (fetchStage mainEndpoints env).1 env).2 =
      mainEndpoints.filterMap (perrOfEnv env) := by
    rw [hraws, hps]
  have hlen : (mainEndpoints.filterMap (perrOfEnv env)).length = 1 := by
    rw [perr_length]
    exact hone
  have hstage := perr_stage mainEndpoints env
  refine ⟨?_, ?_, ?_, ?_⟩
  · show tallyStage ((fetchStage mainEndpoints env).2 ++
        (parseStage (fetchStage mainEndpoints env).1 env).2) "fetch" = 0
    rw [hferr, hperr, List.nil_append]
    exact tallyStage_zero_of_all _ "fetch" "parse" (by decide) hstage
  · show tallyStage ((fetchStage mainEndpoints env).2 ++
        (parseStage (fetchStage mainEndpoints env).1 env).2) "parse" = 1
    rw [hferr, hperr, List.nil_append, tallyStage_eq_of_all _ "parse" hstage]
    exact hlen
  · have hsplit := filter_length_split mainEndpoints (fun e => decodeOk env e)
    have hlen6 : mainEndpoints.length = 6 := rfl
    omega
  · show ((parseStage (fetchStage mainEndpoints env).1 env).1.foldl mergeParsed
        NewAggregatedData).GetEnrichedUsers = _
    rw [hbatches]

theorem C6_one_parse_failure_witness :
    (∀ e ∈ mainEndpoints, fetchOk (wEnv.fetch e) = true) ∧
    (mainEndpoints.filter (fun e => !decodeOk wEnv e)).length = 1 ∧
    ((runPipeline mainEndpoints wEnv).fetchErrTally = 0 ∧
      (runPipeline mainEndpoints wEnv).parseErrTally = 1 ∧
      (mainEndpoints.filter (fun e => decodeOk wEnv e)).length = 5 ∧
      (runPipeline mainEndpoints wEnv).summaries =
        ((mainEndpoints.filterMap (batchOfEnv wEnv)).foldl mergeParsed
          NewAggregatedData).GetEnrichedUsers) :=
  ⟨by decide, by decide, C6_one_parse_failure wEnv (by decide) (by decide)⟩

/-- C8: with zero sources configured the pipeline yields an empty
summary set and a zero error tally, and its synchronisation skeleton
shuts down cleanly: the fully closed state is reachable, every reachable
non-final state can still take a step (no deadlock), and every step
strictly decreases a measure (no infinite run). -/
theorem C8_empty_sources (env : Env) :
    (runPipeline [] env).summaries = [] ∧
    (runPipeline [] env).fetchErrTally = 0 ∧
    (runPipeline [] env).parseErrTally = 0 ∧
    SyncReach (initSync 0 parseWorkers) doneSync ∧
    (∀ s, SyncReach (initSync 0 parseWorkers) s → s ≠ doneSync → ∃ t, SyncStep s t) ∧
    (∀ s t, SyncStep s t → syncMeasure t < syncMeasure s) := by
  refine ⟨rfl, rfl, rfl, ?_, ?_, ?_⟩
  · have r1 : SyncReach (initSync 0 parseWorkers)
        { fetchersRemaining := 0, rawPending := 0, rawClosed := true,
          parsersRemaining := 6, parsedClosed := false, errClosed := false } :=
      SyncReach.step SyncReach.refl (SyncStep.closeRaw (initSync 0 parseWorkers) rfl rfl)
    have r2 : SyncReach (initSync 0 parseWorkers)
        { fetchersRemaining := 0, rawPending := 0, rawClosed := true,
          parsersRemaining := 5, parsedClosed := false, errClosed := false } :=
      SyncReach.step r1 (SyncStep.parserExit _ 5 rfl rfl rfl)
    have r3 : SyncReach (initSync 0 parseWorkers)
        { fetchersRemaining := 0, rawPending := 0, rawClosed := true,
          parsersRemaining := 4, parsedClosed := false, errClosed := false } :=
      SyncReach.step r2 (SyncStep.parserExit _ 4 rfl rfl rfl)
    have r4 : SyncReach (initSync 0 parseWorkers)
        { fetchersRemaining := 0, rawPending := 0, rawClosed := true,
          parsersRemaining := 3, parsedClosed := false, errClosed := false } :=
      SyncReach.step r3 (SyncStep.parserExit _ 3 rfl rfl rfl)
    have r5 : SyncReach (initSync 0 parseWorkers)
        { fetchersRemaining := 0, rawPending := 0, rawClosed := true,
          parsersRemaining := 2, parsedClosed := false, errClosed := false } :=
      SyncReach.step r4 (SyncStep.parserExit _ 2 rfl rfl rfl)
    have r6 : SyncReach (initSync 0 parseWorkers)
        { fetchersRemaining := 0, rawPending := 0, rawClosed := true,
          parsersRemaining := 1, parsedClosed := false, errClosed := false } :=
      SyncReach.step r5 (SyncStep.parserExit _ 1 rfl rfl rfl)
    have r7 : SyncReach (initSync 0 parseWorkers)
        { fetchersRemaining := 0, rawPending := 0, rawClosed := true,
          parsersRemaining := 0, parsedClosed := false, errClosed := false } :=
      SyncReach.step r6 (SyncStep.parserExit _ 0 rfl rfl rfl)
    exact SyncReach.step r7 (SyncStep.closeParsedErr _ rfl rfl)
  · exact fun s hr hne => zero_source_progress hr hne
  · exact fun s t h => syncMeasure_decreases h

theorem C8_empty_sources_witness :
    (runPipeline [] wEnv).summaries = [] ∧
      (∃ t, SyncStep (initSync 0 parseWorkers) t) :=
  ⟨(C8_empty_sources wEnv).1,
   (C8_empty_sources wEnv).2.2.2.2.1 (initSync 0 parseWorkers) SyncReach.refl (by decide)⟩

/-- C9: in every reachable synchronisation state of a run with any
number of sources and a non-empty worker pool, if `parsedCh` or `errCh`
has been closed then all parse workers have finished and `rawCh` was
closed and drained first; and if `rawCh` has been closed then every
retrieval task has finished — the closes happen only after the
respective join barriers. -/
theorem C9_close_ordering (n w : Nat) (hw : 0 < w) (s : SyncState)
    (hr : SyncReach (initSync n w) s) :
    ((s.parsedClosed = true ∨ s.errClosed = true) →
      s.parsersRemaining = 0 ∧ s.rawClosed = true ∧ s.rawPending = 0) ∧
    (s.rawClosed = true → s.fetchersRemaining = 0) := by
  obtain ⟨h1, h2, h3⟩ := syncInv_reach hr
  refine ⟨fun hc => ?_, h1⟩
  have hp0 := h3 hc
  have hlt : s.parsersRemaining < w := by omega
  exact ⟨hp0, (h2 hlt).1, (h2 hlt).2⟩

theorem C9_close_ordering_witness :
    ((doneSync.parsedClosed = true ∨ doneSync.errClosed = true) →
      doneSync.parsersRemaining = 0 ∧ doneSync.rawClosed = true ∧
        doneSync.rawPending = 0) ∧
    (doneSync.rawClosed = true → doneSync.fetchersRemaining = 0) := by
  have r1 : SyncReach (initSync 0 1)
      { fetchersRemaining := 0, rawPending := 0, rawClosed := true,
        parsersRemaining := 1, parsedClosed := false, errClosed := false } :=
    SyncReach.step SyncReach.refl (SyncStep.closeRaw (initSync 0 1) rfl rfl)
  have r2 : SyncReach (initSync 0 1)
      { fetchersRemaining := 0, rawPending := 0, rawClosed := true,
        parsersRemaining := 0, parsedClosed := false, errClosed := false } :=
    SyncReach.step r1 (SyncStep.parserExit _ 0 rfl rfl rfl)
  have r3 : SyncReach (initSync 0 1) doneSync :=
    SyncReach.step r2 (SyncStep.closeParsedErr _ rfl rfl)
  exact C9_close_ordering 0 1 (by decide) doneSync r3

end Jsonplaceholder
